import Mathlib

/-!
Shallow embedding of src/sources/rb-display-page-model.c (RBDisplayPageModel).

The display page model is a GtkTreeModelFilter over a GtkTreeStore whose rows
hold a PLAYING boolean column and a PAGE object column.  We embed:

* pages (RBDisplayPage objects) as records with an identity, a fixed kind
  (group with a category / source of a playlist flavour / plain page), a name
  and the initial value of the mutable "visibility" property;
* the tree store as a flat list of rows in insertion order (gtk appends rows;
  the sorted presentation order is irrelevant to the properties below), with
  parent links by row id;
* the mutable per-page "visibility" property as an association list keyed by
  page id (pages are GObjects, so two rows holding the same page share one
  visibility flag);
* the model operations rb_display_page_model_add_page,
  rb_display_page_model_remove_page and
  rb_display_page_model_set_playing_source, including the
  row-has-child-toggled handler update_group_visibility_cb that
  rb_display_page_model_new connects to the store;
* the sort comparator compare_rows, the filter predicate
  rb_display_page_model_is_row_visible (together with the GtkTreeModelFilter
  rule that a row is shown iff the predicate holds for it and for all its
  ancestors), rb_display_page_model_find_page, and the drag-and-drop entry
  points rb_display_page_model_drag_data_received and
  rb_display_page_model_row_draggable.

g_utf8_collate is toolkit code; the comparator is parameterised by an
arbitrary collation function.  A failing g_assert aborts the C program; the
embedded operations return the state unchanged in those cases, and the
theorems only quantify over traces on which the asserts succeed.
-/

/-- RBDisplayPageGroupCategory.  Modelled from the spec: the category
enumeration lives in rb-display-page-group.h, which is not part of this
excerpt; the spec lists the categories as fixed, persistent, removable,
transient, in that (numeric) order. -/
inductive GroupCategory where
  | fixed
  | persistent
  | removable
  | transient
deriving DecidableEq

/-- Numeric value of a category constant (enum order from the spec). -/
def GroupCategory.num : GroupCategory → Nat
  | .fixed => 0
  | .persistent => 1
  | .removable => 2
  | .transient => 3

/-- Flavour of a source page: auto playlist (RB_IS_AUTO_PLAYLIST_SOURCE),
static playlist (RB_IS_STATIC_PLAYLIST_SOURCE), or any other RBSource. -/
inductive SourceFlavour where
  | auto
  | staticPl
  | plain
deriving DecidableEq

/-- GObject run-time kind of a page: an RBDisplayPageGroup with its category,
an RBSource with its flavour, or a plain RBDisplayPage that is neither. -/
inductive PageKind where
  | group (cat : GroupCategory)
  | source (fl : SourceFlavour)
  | notSource
deriving DecidableEq

/-- An RBDisplayPage object.  `pid` is the object identity (pointer), `vis0`
the value of its mutable "visibility" property before it enters the model. -/
structure Page where
  pid : Nat
  name : String
  vis0 : Bool
  kind : PageKind
deriving DecidableEq

/-- RB_IS_DISPLAY_PAGE_GROUP. -/
def Page.isGroup (p : Page) : Bool :=
  match p.kind with
  | .group _ => true
  | _ => false

/-- RB_IS_SOURCE. -/
def Page.isSource (p : Page) : Bool :=
  match p.kind with
  | .source _ => true
  | _ => false

/-- RB_IS_AUTO_PLAYLIST_SOURCE. -/
def Page.isAuto (p : Page) : Bool :=
  match p.kind with
  | .source .auto => true
  | _ => false

/-- RB_IS_STATIC_PLAYLIST_SOURCE. -/
def Page.isStaticPl (p : Page) : Bool :=
  match p.kind with
  | .source .staticPl => true
  | _ => false

/-- A row of the GtkTreeStore: the two columns
(RB_DISPLAY_PAGE_MODEL_COLUMN_PLAYING, RB_DISPLAY_PAGE_MODEL_COLUMN_PAGE)
plus the tree structure (row id and parent row id). -/
structure Row where
  rid : Nat
  page : Page
  playing : Bool
  parent : Option Nat
deriving DecidableEq

/-- The GtkTreeStore together with the mutable "visibility" property of the
page objects (keyed by page id; most recent entry wins, absent means the
page still has its initial `vis0`). -/
structure Store where
  rows : List Row
  nextId : Nat
  vis : List (Nat × Bool)
deriving DecidableEq

/-- The store created by rb_display_page_model_new: empty. -/
def emptyStore : Store := ⟨[], 0, []⟩

/-- Current value of a page's "visibility" property (g_object_get). -/
def lookupVis (s : Store) (p : Page) : Bool :=
  match s.vis.find? (fun e => decide (e.1 = p.pid)) with
  | some e => e.2
  | none => p.vis0

/-- g_object_set of the "visibility" property of the page with id `pid`. -/
def setVis (s : Store) (pid : Nat) (b : Bool) : Store :=
  ⟨s.rows, s.nextId, (pid, b) :: s.vis⟩

/-- gtk_tree_model_iter_has_child for the row with id `rid`. -/
def hasChild (rows : List Row) (rid : Nat) : Bool :=
  rows.any (fun r => decide (r.parent = some rid))

/-- find_in_real_model / match_page_to_iter: first row holding `p`. -/
def findRowByPage (rows : List Row) (p : Page) : Option Row :=
  rows.find? (fun r => decide (r.page = p))

/-- update_group_visibility_cb, run for row `q` against the current rows of
`s`: a group's visibility is set to whether the row has a child. -/
def updateGroupVis (s : Store) (q : Row) : Store :=
  if q.page.isGroup then setVis s q.page.pid (hasChild s.rows q.rid) else s

/-- Row ids of the subtree rooted at the ids in `acc` (used by
gtk_tree_store_remove, which removes a row together with its descendants).
One left-to-right pass suffices because rows are stored in insertion order,
in which every row appears after its parent. -/
def descAcc : List Row → List Nat → List Nat
  | [], acc => acc
  | r :: rest, acc =>
      descAcc rest
        (if (match r.parent with
             | some p => decide (p ∈ acc)
             | none => false) then r.rid :: acc else acc)

/-- rb_display_page_model_add_page.  With a parent, the new row is appended
under the first row holding the parent page (g_assert aborts when the parent
is absent; modelled as leaving the state unchanged); appending a first child
fires row-has-child-toggled on the parent, which runs
update_group_visibility_cb.  Without a parent, the page's visibility is first
forced to FALSE and the row is appended at top level.  The new row's PLAYING
column is set to FALSE either way. -/
def rb_display_page_model_add_page (s : Store) (page : Page) (parent : Option Page) : Store :=
  match parent with
  | some pp =>
      match findRowByPage s.rows pp with
      | none => s
      | some q =>
          let rows' := s.rows ++ [⟨s.nextId, page, false, some q.rid⟩]
          let s' : Store := ⟨rows', s.nextId + 1, s.vis⟩
          if hasChild s.rows q.rid then s' else updateGroupVis s' q
  | none =>
      let s1 := setVis s page.pid false
      ⟨s1.rows ++ [⟨s.nextId, page, false, none⟩], s.nextId + 1, s1.vis⟩

/-- rb_display_page_model_remove_page.  The first row holding the page is
removed together with its descendants (g_assert aborts when the page is
absent; modelled as leaving the state unchanged); if this takes the parent's
child count to zero, row-has-child-toggled runs update_group_visibility_cb
on the parent. -/
def rb_display_page_model_remove_page (s : Store) (page : Page) : Store :=
  match findRowByPage s.rows page with
  | none => s
  | some q =>
      let dset := descAcc s.rows [q.rid]
      let rows' := s.rows.filter (fun r => !(decide (r.rid ∈ dset)))
      let s' : Store := ⟨rows', s.nextId, s.vis⟩
      match q.parent with
      | none => s'
      | some pr =>
          if hasChild s.rows pr = hasChild rows' pr then s'
          else
            match rows'.find? (fun x => decide (x.rid = pr)) with
            | none => s'
            | some prow => updateGroupVis s' prow

/-- set_playing_flag, applied to every row by
rb_display_page_model_set_playing_source: on source rows whose old or new
flag is set, PLAYING becomes (page == source); other rows are untouched. -/
def set_playing_flag (src : Page) (r : Row) : Row :=
  if r.page.isSource then
    if r.playing || decide (r.page = src) then ⟨r.rid, r.page, decide (r.page = src), r.parent⟩
    else r
  else r

/-- rb_display_page_model_set_playing_source: gtk_tree_model_foreach over the
child model with set_playing_flag. -/
def rb_display_page_model_set_playing_source (s : Store) (src : Page) : Store :=
  ⟨s.rows.map (set_playing_flag src), s.nextId, s.vis⟩

/-- A call to one of the three model operations. -/
inductive Op where
  | add (page : Page) (parent : Option Page)
  | remove (page : Page)
  | setPlayingSource (src : Page)

/-- One model operation applied to the store. -/
def stepOp (s : Store) : Op → Store
  | .add page parent => rb_display_page_model_add_page s page parent
  | .remove page => rb_display_page_model_remove_page s page
  | .setPlayingSource src => rb_display_page_model_set_playing_source s src

/-- The store reached from the empty store by a sequence of operations. -/
def runOps (ops : List Op) : Store :=
  ops.foldl stepOp emptyStore

/-- An add is fresh when no current row holds a page with the added page's
identity (the page object is not already in the model). -/
def addFreshOk (s : Store) : Op → Bool
  | .add p _ => s.rows.all (fun r => !(decide (r.page.pid = p.pid)))
  | _ => true

/-- Group pages are only added at top level (as the program does). -/
def groupTopOk : Op → Bool
  | .add p parent => !p.isGroup || parent.isNone
  | _ => true

/-- A trace is valid for `f` when every operation satisfies `f` in the state
it executes in. -/
def validFrom (f : Store → Op → Bool) : Store → List Op → Bool
  | _, [] => true
  | s, op :: ops => f s op && validFrom f (stepOp s op) ops

/-- Traces on which no page is added while already present. -/
def c1Valid (ops : List Op) : Bool :=
  validFrom (fun s op => addFreshOk s op) emptyStore ops

/-- Traces on which, additionally, groups are only added at top level. -/
def c2Valid (ops : List Op) : Bool :=
  validFrom (fun s op => addFreshOk s op && groupTopOk op) emptyStore ops

/-- Number of rows with the PLAYING column set. -/
def countPlaying (s : Store) : Nat :=
  (s.rows.filter (fun r => r.playing)).length

/-- Decidable form of the group-visibility invariant: every group row's
visibility equals whether it currently has a child. -/
def visInvHolds (s : Store) : Bool :=
  s.rows.all (fun r => !r.page.isGroup || decide (lookupVis s r.page = hasChild s.rows r.rid))

/-- The walk in compare_rows that climbs from a row to its topmost ancestor
(walk_iter / group_iter loop).  Fuelled; `rows.length` steps always reach the
root because parent ids are strictly smaller than child ids. -/
def rootOf (rows : List Row) : Nat → Row → Row
  | 0, r => r
  | fuel + 1, r =>
      match r.parent with
      | none => r
      | some p =>
          match rows.find? (fun x => decide (x.rid = p)) with
          | some pr => rootOf rows fuel pr
          | none => r

/-- compare_rows, the GtkTreeIterCompareFunc installed on the store.
`collate` stands for g_utf8_collate.  Two groups compare by category number,
then by collated name.  Otherwise the category of row `a`'s topmost ancestor
decides the policy: FIXED always returns -1, PERSISTENT sorts auto playlists
before static playlists (each flavour by collated name), REMOVABLE and
TRANSIENT sort by collated name.  If the topmost ancestor is not a group the
C code reads an uninitialised category and aborts in g_assert_not_reached;
that unreachable branch is modelled as 0. -/
def compare_rows (rows : List Row) (collate : String → String → Int) (a b : Row) : Int :=
  if a.page.isGroup && b.page.isGroup then
    match a.page.kind, b.page.kind with
    | .group aCat, .group bCat =>
        if aCat.num < bCat.num then -1
        else if aCat.num > bCat.num then 1
        else collate a.page.name b.page.name
    | _, _ => 0
  else
    match (rootOf rows rows.length a).page.kind with
    | .group .fixed => -1
    | .group .persistent =>
        if a.page.isAuto && b.page.isAuto then collate a.page.name b.page.name
        else if a.page.isStaticPl && b.page.isStaticPl then collate a.page.name b.page.name
        else if a.page.isAuto then -1
        else 1
    | .group .removable => collate a.page.name b.page.name
    | .group .transient => collate a.page.name b.page.name
    | _ => 0

/-- rb_display_page_model_is_row_visible, the GtkTreeModelFilterVisibleFunc:
FALSE when the row has no page, otherwise the page's visibility property. -/
def rb_display_page_model_is_row_visible (s : Store) (page : Option Page) : Bool :=
  match page with
  | some p => lookupVis s p
  | none => false

/-- GtkTreeModelFilter semantics (toolkit): a row of the child model appears
in the filter model iff the visible function holds for it and for every
ancestor.  Fuelled walk up the parent chain. -/
def shownInFilter (s : Store) : Nat → Row → Bool
  | 0, r => rb_display_page_model_is_row_visible s (some r.page)
  | fuel + 1, r =>
      rb_display_page_model_is_row_visible s (some r.page) &&
        (match r.parent with
         | none => true
         | some p =>
             match s.rows.find? (fun x => decide (x.rid = p)) with
             | some pr => shownInFilter s fuel pr
             | none => true)

/-- The rows of the child model that appear in the filter model. -/
def filterRows (s : Store) : List Row :=
  s.rows.filter (fun r => shownInFilter s s.rows.length r)

/-- A row together with its chain of ancestors up to the root. -/
def chainToRoot (s : Store) : Nat → Row → List Row
  | 0, r => [r]
  | fuel + 1, r =>
      r ::
        (match r.parent with
         | none => []
         | some p =>
             match s.rows.find? (fun x => decide (x.rid = p)) with
             | some pr => chainToRoot s fuel pr
             | none => [])

/-- rb_display_page_model_find_page: gtk_tree_model_foreach over the filter
model with match_page_to_iter; returns the first visible row holding the
page, or none (leaving the caller's iter unset). -/
def rb_display_page_model_find_page (s : Store) (page : Page) : Option Row :=
  (filterRows s).find? (fun r => decide (r.page = page))

/-- Result of rb_display_page_model_drag_data_received: the returned boolean,
the list of drop-received signal emissions (payload: the target page passed
to the handlers, NULL for browser-item drops), and the model state after the
call. -/
structure DropResult where
  accepted : Bool
  emitted : List (Option Page)
  store : Store
deriving DecidableEq

/-- rb_display_page_model_drag_data_received.  `target` is the page at the
destination path in the filter model, if the path is non-NULL and resolves
(GtkTreePath resolution is toolkit code).  text/uri-list and
application/x-rhythmbox-entry emit drop-received with the target page and
return TRUE; the three browser-item types emit drop-received with a NULL
page and return TRUE; application/x-rhythmbox-source is refused (dnd of
sources is not supported), and any other type falls through to FALSE.  The
function never touches the store. -/
def rb_display_page_model_drag_data_received (model : Store) (mime : String) (target : Option Page) : DropResult :=
  if mime = "text/uri-list" ∨ mime = "application/x-rhythmbox-entry" then
    ⟨true, [target], model⟩
  else if mime = "text/x-rhythmbox-album" ∨ mime = "text/x-rhythmbox-artist" ∨
          mime = "text/x-rhythmbox-genre" then
    ⟨true, [none], model⟩
  else if mime = "application/x-rhythmbox-source" then
    ⟨false, [], model⟩
  else
    ⟨false, [], model⟩

/-- rb_display_page_model_row_draggable: unconditionally FALSE. -/
def rb_display_page_model_row_draggable (pathList : List (List Nat)) : Bool :=
  false

/-! Concrete fixtures used by counterexamples and witnesses. -/

/-- A fixed group page. -/
def fixGroupPage : Page := ⟨0, "Library", false, .group .fixed⟩

/-- A source page named "a". -/
def srcPageA : Page := ⟨1, "a", true, .source .plain⟩

/-- A source page named "b". -/
def srcPageB : Page := ⟨2, "b", true, .source .plain⟩

/-- A store: the fixed group with the two sources appended under it. -/
def fixStore : Store :=
  runOps [.add fixGroupPage none, .add srcPageA (some fixGroupPage), .add srcPageB (some fixGroupPage)]

/-- Row of srcPageA in fixStore. -/
def rowA : Row := ⟨1, srcPageA, false, some 0⟩

/-- Row of srcPageB in fixStore. -/
def rowB : Row := ⟨2, srcPageB, false, some 0⟩

/-- A persistent group page. -/
def perGroupPage : Page := ⟨20, "Playlists", false, .group .persistent⟩

/-- An auto playlist page. -/
def autoPage : Page := ⟨21, "auto", true, .source .auto⟩

/-- A static playlist page. -/
def staticPage : Page := ⟨22, "static", true, .source .staticPl⟩

/-- A store with the persistent group holding an auto and a static playlist. -/
def perStore : Store :=
  runOps [.add perGroupPage none, .add autoPage (some perGroupPage), .add staticPage (some perGroupPage)]

/-- A concrete collation stand-in for witnesses (compares code points). -/
def ordCollate (x y : String) : Int :=
  if x < y then -1 else if y < x then 1 else 0

/-- A source page whose duplicated addition breaks the playing invariant. -/
def dupPage : Page := ⟨5, "p", true, .source .plain⟩

/-- A trace that adds the same page object twice, then sets it playing. -/
def dupTrace : List Op := [.add dupPage none, .add dupPage none, .setPlayingSource dupPage]

/-- A group page whose visibility property is initially TRUE. -/
def visGroupPage : Page := ⟨11, "g2", true, .group .persistent⟩

/-- A trace adding a group with visibility TRUE under a parent. -/
def groupChildTrace : List Op := [.add fixGroupPage none, .add visGroupPage (some fixGroupPage)]

/-- A hidden top-level source page. -/
def hiddenParentPage : Page := ⟨30, "s", false, .source .plain⟩

/-- A visible page added under the hidden source. -/
def visChildPage : Page := ⟨31, "c", true, .source .plain⟩

/-- A store with a visible page under a hidden top-level page. -/
def hiddenChildStore : Store :=
  runOps [.add hiddenParentPage none, .add visChildPage (some hiddenParentPage)]

/-- The row holding visChildPage in hiddenChildStore. -/
def visChildRow : Row := ⟨1, visChildPage, false, some 0⟩

/-- The trace building fixStore. -/
def fixTrace : List Op :=
  [.add fixGroupPage none, .add srcPageA (some fixGroupPage), .add srcPageB (some fixGroupPage)]

/-- Invariant carried along c1-valid traces: PLAYING is only ever set on
source rows, pages are pairwise distinct across rows, and at most one row is
playing. -/
def Inv1Rows (rows : List Row) : Prop :=
  (∀ r ∈ rows, r.playing = true → r.page.isSource = true) ∧
  rows.Pairwise (fun a b => a.page.pid ≠ b.page.pid) ∧
  (rows.filter (fun r => r.playing)).length ≤ 1

/-- Invariant carried along c2-valid traces: rows are in strictly increasing
id order, ids are below nextId, pages are pairwise distinct, parent links
point to smaller ids, group rows sit at top level, and every group row's
visibility equals whether it has a child. -/
def Inv2 (s : Store) : Prop :=
  s.rows.Pairwise (fun a b => a.rid < b.rid) ∧
  (∀ r ∈ s.rows, r.rid < s.nextId) ∧
  s.rows.Pairwise (fun a b => a.page.pid ≠ b.page.pid) ∧
  (∀ r ∈ s.rows, ∀ p, r.parent = some p → p < r.rid) ∧
  (∀ r ∈ s.rows, r.page.isGroup = true → r.parent = none) ∧
  (∀ r ∈ s.rows, r.page.isGroup = true → lookupVis s r.page = hasChild s.rows r.rid)

/-! Helper lemmas. -/

theorem isGroup_eq_true_iff (p : Page) : p.isGroup = true ↔ ∃ c, p.kind = .group c := by
  cases hk : p.kind <;> simp [Page.isGroup, hk]

theorem shownInFilter_self_visible (s : Store) (fuel : Nat) (r : Row)
    (h : shownInFilter s fuel r = true) : lookupVis s r.page = true := by
  cases fuel with
  | zero => simpa [shownInFilter, rb_display_page_model_is_row_visible] using h
  | succ n =>
      have := (Bool.and_eq_true _ _).mp h
      simpa [rb_display_page_model_is_row_visible] using this.1

theorem shownInFilter_eq_chain_all (s : Store) (fuel : Nat) (r : Row) :
    shownInFilter s fuel r = true ↔
      ∀ q ∈ chainToRoot s fuel r, lookupVis s q.page = true := by
  induction fuel generalizing r with
  | zero => simp [shownInFilter, chainToRoot, rb_display_page_model_is_row_visible]
  | succ n ih =>
      cases hp : r.parent with
      | none =>
          simp [shownInFilter, chainToRoot, hp, rb_display_page_model_is_row_visible]
      | some p =>
          cases hf : s.rows.find? (fun x => decide (x.rid = p)) with
          | none =>
              simp [shownInFilter, chainToRoot, hp, hf, rb_display_page_model_is_row_visible]
          | some pr =>
              simp [shownInFilter, chainToRoot, hp, hf,
                    rb_display_page_model_is_row_visible, ih pr]

/-! Claim theorems. -/

/-- C9: rb_display_page_model_row_draggable returns FALSE for every path
list: no row of the display page model can be picked up as a drag source. -/
theorem C9_row_draggable_always_false (l : List (List Nat)) :
    rb_display_page_model_row_draggable l = false := rfl

/-- C7 counterexample: a drop of type application/x-rhythmbox-source — one of
the six types the claim says is accepted — is refused: the handler returns
FALSE. -/
theorem C7_counterexample :
    (rb_display_page_model_drag_data_received emptyStore "application/x-rhythmbox-source" none).accepted = false := by
  decide

/-- C7 (amended): drops whose selection data type is one of the five types
text/uri-list, application/x-rhythmbox-entry, text/x-rhythmbox-album,
text/x-rhythmbox-artist, text/x-rhythmbox-genre are accepted (the handler
returns TRUE); application/x-rhythmbox-source is not among them. -/
theorem C7_accepted_types (s : Store) (target : Option Page) (mime : String)
    (h : mime = "text/uri-list" ∨ mime = "application/x-rhythmbox-entry" ∨
         mime = "text/x-rhythmbox-album" ∨ mime = "text/x-rhythmbox-artist" ∨
         mime = "text/x-rhythmbox-genre") :
    (rb_display_page_model_drag_data_received s mime target).accepted = true := by
  rcases h with h | h | h | h | h <;> subst h <;>
    simp [rb_display_page_model_drag_data_received]

/-- C7 witness: the theorem applied at a concrete accepted type. -/
theorem C7_witness :
    ("text/uri-list" = "text/uri-list" ∨ "text/uri-list" = "application/x-rhythmbox-entry" ∨
     "text/uri-list" = "text/x-rhythmbox-album" ∨ "text/uri-list" = "text/x-rhythmbox-artist" ∨
     "text/uri-list" = "text/x-rhythmbox-genre") ∧
    (rb_display_page_model_drag_data_received emptyStore "text/uri-list" none).accepted = true :=
  ⟨Or.inl rfl, C7_accepted_types emptyStore none "text/uri-list" (Or.inl rfl)⟩

/-- C8: a drop whose selection data type is none of the five handled types is
a silent no-op: the handler returns FALSE, emits no drop-received signal, and
leaves the model state unchanged. -/
theorem C8_unhandled_type_noop (s : Store) (target : Option Page) (mime : String)
    (h : ¬(mime = "text/uri-list" ∨ mime = "application/x-rhythmbox-entry" ∨
           mime = "text/x-rhythmbox-album" ∨ mime = "text/x-rhythmbox-artist" ∨
           mime = "text/x-rhythmbox-genre")) :
    rb_display_page_model_drag_data_received s mime target = ⟨false, [], s⟩ := by
  unfold rb_display_page_model_drag_data_received
  rw [if_neg (by tauto), if_neg (by tauto)]
  split <;> rfl

/-- C8 witness: the theorem applied at the concrete type
application/x-delete-me. -/
theorem C8_witness :
    ¬("application/x-delete-me" = "text/uri-list" ∨
      "application/x-delete-me" = "application/x-rhythmbox-entry" ∨
      "application/x-delete-me" = "text/x-rhythmbox-album" ∨
      "application/x-delete-me" = "text/x-rhythmbox-artist" ∨
      "application/x-delete-me" = "text/x-rhythmbox-genre") ∧
    rb_display_page_model_drag_data_received emptyStore "application/x-delete-me" none =
      ⟨false, [], emptyStore⟩ :=
  ⟨by decide, C8_unhandled_type_noop emptyStore none "application/x-delete-me" (by decide)⟩

/-- C3: for two group rows, compare_rows orders by category number first and
by collated name when the categories are equal: -1 when the first category is
smaller, 1 when larger, the collation of the names otherwise. -/
theorem C3_group_category_then_name (rows : List Row) (collate : String → String → Int)
    (a b : Row) (ca cb : GroupCategory)
    (ha : a.page.kind = .group ca) (hb : b.page.kind = .group cb) :
    compare_rows rows collate a b =
      (if ca.num < cb.num then -1
       else if cb.num < ca.num then 1
       else collate a.page.name b.page.name) := by
  have ga : a.page.isGroup = true := by simp [Page.isGroup, ha]
  have gb : b.page.isGroup = true := by simp [Page.isGroup, hb]
  unfold compare_rows
  rw [if_pos (by simp [ga, gb])]
  simp [ha, hb, gt_iff_lt]

/-- C3 witness: the theorem applied to a fixed group and a persistent
group. -/
theorem C3_witness :
    fixGroupPage.kind = .group .fixed ∧ perGroupPage.kind = .group .persistent ∧
    compare_rows [] ordCollate ⟨0, fixGroupPage, false, none⟩ ⟨1, perGroupPage, false, none⟩ =
      (if GroupCategory.fixed.num < GroupCategory.persistent.num then -1
       else if GroupCategory.persistent.num < GroupCategory.fixed.num then 1
       else ordCollate fixGroupPage.name perGroupPage.name) :=
  ⟨rfl, rfl,
    C3_group_category_then_name [] ordCollate ⟨0, fixGroupPage, false, none⟩
      ⟨1, perGroupPage, false, none⟩ .fixed .persistent rfl rfl⟩

/-- C4 counterexample: under a FIXED group, compare_rows is not a consistent
comparator: for the two concrete sources a and b appended under the fixed
group, compare(a,b) < 0 but compare(b,a) is not > 0 (both are -1). -/
theorem C4_counterexample :
    compare_rows fixStore.rows ordCollate rowA rowB < 0 ∧
    ¬(compare_rows fixStore.rows ordCollate rowB rowA > 0) := by
  decide

/-- C4 (amended): for every pair of rows that are not both groups whose
topmost ancestor (of the first argument) is a group with category FIXED,
compare_rows returns -1 regardless of argument order; GTK's insert-time use
of the comparator turns this constant answer into append order, but the
comparator itself is not consistent. -/
theorem C4_fixed_returns_minus_one (rows : List Row) (collate : String → String → Int)
    (a b : Row) (hng : ¬(a.page.isGroup = true ∧ b.page.isGroup = true))
    (hroot : (rootOf rows rows.length a).page.kind = .group .fixed) :
    compare_rows rows collate a b = -1 := by
  unfold compare_rows
  rw [if_neg (by simpa [Bool.and_eq_true] using hng)]
  rw [hroot]

/-- C4 witness: the theorem applied to the two sources under the fixed
group. -/
theorem C4_witness :
    ¬(rowA.page.isGroup = true ∧ rowB.page.isGroup = true) ∧
    (rootOf fixStore.rows fixStore.rows.length rowA).page.kind = .group .fixed ∧
    compare_rows fixStore.rows ordCollate rowA rowB = -1 :=
  ⟨by decide, by decide,
    C4_fixed_returns_minus_one fixStore.rows ordCollate rowA rowB (by decide) (by decide)⟩

/-- C5: for rows that are not both groups, with the topmost ancestor of the
first row a group of category PERSISTENT, compare_rows sorts two auto
playlists and two static playlists by collated name, puts an auto playlist
before a static playlist (-1), and a static playlist after an auto playlist
(1); with category REMOVABLE or TRANSIENT it sorts by collated name. -/
theorem C5_persistent_and_name_policies (rows : List Row) (collate : String → String → Int)
    (a b : Row) (hng : ¬(a.page.isGroup = true ∧ b.page.isGroup = true)) :
    ((rootOf rows rows.length a).page.kind = .group .persistent →
       (a.page.isAuto = true → b.page.isAuto = true →
          compare_rows rows collate a b = collate a.page.name b.page.name) ∧
       (a.page.isStaticPl = true → b.page.isStaticPl = true →
          compare_rows rows collate a b = collate a.page.name b.page.name) ∧
       (a.page.isAuto = true → b.page.isStaticPl = true →
          compare_rows rows collate a b = -1) ∧
       (a.page.isStaticPl = true → b.page.isAuto = true →
          compare_rows rows collate a b = 1)) ∧
    ((rootOf rows rows.length a).page.kind = .group .removable →
       compare_rows rows collate a b = collate a.page.name b.page.name) ∧
    ((rootOf rows rows.length a).page.kind = .group .transient →
       compare_rows rows collate a b = collate a.page.name b.page.name) := by
  have hng' : (a.page.isGroup && b.page.isGroup) = false := by
    rcases Bool.eq_false_or_eq_true (a.page.isGroup && b.page.isGroup) with h | h
    · exact absurd ((Bool.and_eq_true _ _).mp h) (by exact_mod_cast hng)
    · exact h
  refine ⟨fun hroot => ?_, fun hroot => ?_, fun hroot => ?_⟩
  · refine ⟨fun haa hba => ?_, fun hsa hsb => ?_, fun haa hsb => ?_, fun hsa hba => ?_⟩
    · unfold compare_rows
      rw [if_neg (by simp [hng'])]
      rw [hroot]
      simp [haa, hba]
    · have hana : a.page.isAuto = false := by
        cases hk : a.page.kind with
        | source fl =>
            cases fl <;> simp_all [Page.isAuto, Page.isStaticPl]
        | group c => simp [Page.isAuto, hk]
        | notSource => simp [Page.isAuto, hk]
      unfold compare_rows
      rw [if_neg (by simp [hng'])]
      rw [hroot]
      simp [hana, hsa, hsb]
    · have hbna : b.page.isStaticPl = true → b.page.isAuto = false := by
        cases hk : b.page.kind with
        | source fl => cases fl <;> simp_all [Page.isAuto, Page.isStaticPl]
        | group c => simp [Page.isAuto, hk]
        | notSource => simp [Page.isAuto, hk]
      have hans : a.page.isAuto = true → a.page.isStaticPl = false := by
        cases hk : a.page.kind with
        | source fl => cases fl <;> simp_all [Page.isAuto, Page.isStaticPl]
        | group c => simp [Page.isStaticPl, hk]
        | notSource => simp [Page.isStaticPl, hk]
      unfold compare_rows
      rw [if_neg (by simp [hng'])]
      rw [hroot]
      simp [haa, hbna hsb, hans haa]
    · have hana : a.page.isAuto = false := by
        cases hk : a.page.kind with
        | source fl => cases fl <;> simp_all [Page.isAuto, Page.isStaticPl]
        | group c => simp [Page.isAuto, hk]
        | notSource => simp [Page.isAuto, hk]
      have hbns : b.page.isStaticPl = false := by
        cases hk : b.page.kind with
        | source fl => cases fl <;> simp_all [Page.isAuto, Page.isStaticPl]
        | group c => simp [Page.isStaticPl, hk]
        | notSource => simp [Page.isStaticPl, hk]
      unfold compare_rows
      rw [if_neg (by simp [hng'])]
      rw [hroot]
      simp [hana, hbns]
  · unfold compare_rows
    rw [if_neg (by simp [hng'])]
    rw [hroot]
  · unfold compare_rows
    rw [if_neg (by simp [hng'])]
    rw [hroot]

/-- C5 witness: the theorem applied to the auto and static playlists under
the persistent group. -/
theorem C5_witness :
    ¬((⟨1, autoPage, false, some 0⟩ : Row).page.isGroup = true ∧
      (⟨2, staticPage, false, some 0⟩ : Row).page.isGroup = true) ∧
    (rootOf perStore.rows perStore.rows.length ⟨1, autoPage, false, some 0⟩).page.kind =
      .group .persistent ∧
    compare_rows perStore.rows ordCollate ⟨1, autoPage, false, some 0⟩ ⟨2, staticPage, false, some 0⟩ = -1 := by
  refine ⟨by decide, by decide, ?_⟩
  exact ((C5_persistent_and_name_policies perStore.rows ordCollate
      ⟨1, autoPage, false, some 0⟩ ⟨2, staticPage, false, some 0⟩ (by decide)).1
      (by decide)).2.2.1 (by decide) (by decide)

/-- C6 counterexample: a row whose page has visibility TRUE is nevertheless
not shown in the filtered model, because its parent row is hidden: in the
store built by adding a (hidden) top-level source and then a visible page
under it, the child row is in the store with its page's visibility TRUE, yet
it is not among the filtered rows. -/
theorem C6_counterexample :
    visChildRow ∈ hiddenChildStore.rows ∧
    lookupVis hiddenChildStore visChildRow.page = true ∧
    visChildRow ∉ filterRows hiddenChildStore := by
  decide

/-- C6 (amended): the visibility predicate returns exactly the page's
visibility flag, and a row of the underlying store is shown in the filtered
model iff the visibility flags of its page and of all its ancestors' pages
are TRUE (GtkTreeModelFilter hides the descendants of hidden rows). -/
theorem C6_shown_iff_chain_visible (s : Store) (r : Row) (hr : r ∈ s.rows) :
    rb_display_page_model_is_row_visible s (some r.page) = lookupVis s r.page ∧
    (r ∈ filterRows s ↔
       ∀ q ∈ chainToRoot s s.rows.length r, lookupVis s q.page = true) := by
  refine ⟨rfl, ?_⟩
  rw [← shownInFilter_eq_chain_all]
  unfold filterRows
  rw [List.mem_filter]
  simp [hr]

/-- C6 witness: the theorem applied to the hidden child row: it is not shown
because its parent's page is hidden. -/
theorem C6_witness :
    visChildRow ∈ hiddenChildStore.rows ∧
    (rb_display_page_model_is_row_visible hiddenChildStore (some visChildRow.page) =
       lookupVis hiddenChildStore visChildRow.page ∧
     (visChildRow ∈ filterRows hiddenChildStore ↔
        ∀ q ∈ chainToRoot hiddenChildStore hiddenChildStore.rows.length visChildRow,
          lookupVis hiddenChildStore q.page = true)) :=
  ⟨by decide, C6_shown_iff_chain_visible hiddenChildStore visChildRow (by decide)⟩

/-- C10: a page whose visibility flag is FALSE is filtered out of the visible
model, so rb_display_page_model_find_page, which searches only the filter
model, returns no row for it (the caller's iter stays unset). -/
theorem C10_find_page_misses_invisible (s : Store) (p : Page)
    (h : lookupVis s p = false) :
    rb_display_page_model_find_page s p = none := by
  unfold rb_display_page_model_find_page
  rw [List.find?_eq_none]
  intro r hr
  have hshown : shownInFilter s s.rows.length r = true := by
    have := (List.mem_filter.mp hr).2
    simpa using this
  have hvis := shownInFilter_self_visible s s.rows.length r hshown
  intro hbeq
  have : r.page = p := by simpa using hbeq
  rw [this, h] at hvis
  exact Bool.false_ne_true hvis

/-- C10 witness: the theorem applied to a page added at top level (its
visibility is forced FALSE, so it cannot be found). -/
theorem C10_witness :
    lookupVis (runOps [.add hiddenParentPage none]) hiddenParentPage = false ∧
    rb_display_page_model_find_page (runOps [.add hiddenParentPage none]) hiddenParentPage = none :=
  ⟨by decide,
    C10_find_page_misses_invisible (runOps [.add hiddenParentPage none]) hiddenParentPage (by decide)⟩

/-! Lemmas towards C1. -/

theorem set_playing_flag_page (src : Page) (r : Row) : (set_playing_flag src r).page = r.page := by
  unfold set_playing_flag
  split
  · split <;> rfl
  · rfl

theorem set_playing_flag_rid (src : Page) (r : Row) : (set_playing_flag src r).rid = r.rid := by
  unfold set_playing_flag
  split
  · split <;> rfl
  · rfl

theorem set_playing_flag_parent (src : Page) (r : Row) :
    (set_playing_flag src r).parent = r.parent := by
  unfold set_playing_flag
  split
  · split <;> rfl
  · rfl

theorem set_playing_flag_playing (src : Page) (r : Row)
    (h : r.playing = true → r.page.isSource = true) :
    (set_playing_flag src r).playing = (r.page.isSource && decide (r.page = src)) := by
  unfold set_playing_flag
  by_cases hs : r.page.isSource = true
  · rw [if_pos hs]
    by_cases hp : (r.playing || decide (r.page = src)) = true
    · rw [if_pos hp]
      simp [hs]
    · rw [if_neg hp]
      simp only [Bool.or_eq_true, not_or] at hp
      rw [Bool.eq_false_iff.mpr hp.1, Bool.eq_false_iff.mpr hp.2, hs]
      simp
  · have hb : r.page.isSource = false := Bool.eq_false_iff.mpr hs
    rw [if_neg hs]
    have hpl : r.playing = false := by
      cases hpl : r.playing
      · rfl
      · exact absurd (h hpl) hs
    simp [hb, hpl]

theorem pairwise_mem_rel {R : Row → Row → Prop} (hsym : ∀ a b, R a b → R b a)
    {l : List Row} (hp : l.Pairwise R) {a b : Row}
    (ha : a ∈ l) (hb : b ∈ l) (hne : a ≠ b) : R a b := by
  induction hp with
  | nil => simp at ha
  | @cons hd tl hhead htail ih =>
      rcases List.mem_cons.mp ha with rfl | ha'
      · rcases List.mem_cons.mp hb with rfl | hb'
        · exact absurd rfl hne
        · exact hhead b hb'
      · rcases List.mem_cons.mp hb with rfl | hb'
        · exact hsym _ _ (hhead a ha')
        · exact ih ha' hb'

theorem rid_inj {l : List Row} (hs : l.Pairwise (fun a b => a.rid < b.rid))
    {a b : Row} (ha : a ∈ l) (hb : b ∈ l) (h : a.rid = b.rid) : a = b := by
  by_contra hne
  have hpw : l.Pairwise (fun a b => a.rid ≠ b.rid) :=
    hs.imp fun hab => Nat.ne_of_lt hab
  exact pairwise_mem_rel (fun a b hab => Ne.symm hab) hpw ha hb hne h

theorem count_play_after_set (src : Page) (l : List Row)
    (hpw : l.Pairwise (fun a b => a.page.pid ≠ b.page.pid))
    (hps : ∀ r ∈ l, r.playing = true → r.page.isSource = true) :
    ((l.map (set_playing_flag src)).filter (fun r => r.playing)).length ≤ 1 := by
  induction l with
  | nil => simp
  | cons hd tl ih =>
      obtain ⟨hhd, htl⟩ := List.pairwise_cons.mp hpw
      have hret := set_playing_flag_playing src hd (hps hd (by simp))
      simp only [List.map_cons, List.filter_cons]
      by_cases hp : (set_playing_flag src hd).playing = true
      · rw [if_pos hp]
        rw [hret] at hp
        have hsrc : hd.page = src := of_decide_eq_true ((Bool.and_eq_true _ _).mp hp).2
        have hnil : (tl.map (set_playing_flag src)).filter (fun r => r.playing) = [] := by
          rw [List.filter_eq_nil_iff]
          intro r hr
          obtain ⟨x, hx, rfl⟩ := List.mem_map.mp hr
          rw [set_playing_flag_playing src x (fun hpl => hps x (by simp [hx]) hpl)]
          intro habs
          have hxeq : x.page = src := of_decide_eq_true ((Bool.and_eq_true _ _).mp habs).2
          exact (hhd x hx) (by rw [hsrc, hxeq])
        simp [hnil]
      · rw [if_neg hp]
        exact ih htl (fun r hr hpl => hps r (by simp [hr]) hpl)

theorem add_page_rows (s : Store) (p : Page) (par : Option Page) :
    (rb_display_page_model_add_page s p par).rows = s.rows ∨
    ∃ pr, (rb_display_page_model_add_page s p par).rows =
      s.rows ++ [⟨s.nextId, p, false, pr⟩] := by
  cases par with
  | none => exact Or.inr ⟨none, rfl⟩
  | some pp =>
      cases hf : findRowByPage s.rows pp with
      | none =>
          left
          simp only [rb_display_page_model_add_page, hf]
      | some q =>
          refine Or.inr ⟨some q.rid, ?_⟩
          simp only [rb_display_page_model_add_page, hf]
          split
          · rfl
          · unfold updateGroupVis
            split
            · rfl
            · rfl

theorem remove_page_rows (s : Store) (p : Page) :
    (rb_display_page_model_remove_page s p).rows = s.rows ∨
    ∃ f, (rb_display_page_model_remove_page s p).rows = s.rows.filter f := by
  cases hf : findRowByPage s.rows p with
  | none =>
      left
      simp only [rb_display_page_model_remove_page, hf]
  | some q =>
      refine Or.inr ⟨fun r => !(decide (r.rid ∈ descAcc s.rows [q.rid])), ?_⟩
      simp only [rb_display_page_model_remove_page, hf]
      cases hq : q.parent with
      | none => rfl
      | some pr =>
          dsimp only
          split
          · rfl
          · split
            · rfl
            · unfold updateGroupVis
              split
              · rfl
              · rfl

theorem inv1_append (l : List Row) (r : Row) (hpl : r.playing = false)
    (hfresh : ∀ x ∈ l, x.page.pid ≠ r.page.pid) (h : Inv1Rows l) :
    Inv1Rows (l ++ [r]) := by
  obtain ⟨h1, h2, h3⟩ := h
  refine ⟨?_, ?_, ?_⟩
  · intro x hx hp
    rcases List.mem_append.mp hx with hx' | hx'
    · exact h1 x hx' hp
    · rw [List.mem_singleton.mp hx'] at hp
      rw [hpl] at hp
      cases hp
  · rw [List.pairwise_append]
    exact ⟨h2, List.pairwise_singleton _ _, fun a ha b hb => by
      rw [List.mem_singleton.mp hb]
      exact hfresh a ha⟩
  · rw [List.filter_append]
    have : List.filter (fun r => r.playing) [r] = [] := by
      simp [List.filter_cons, hpl]
    rw [this, List.append_nil]
    exact h3

theorem inv1_sublist {l l' : List Row} (hs : l'.Sublist l) (h : Inv1Rows l) : Inv1Rows l' := by
  obtain ⟨h1, h2, h3⟩ := h
  refine ⟨fun x hx hp => h1 x (hs.mem hx) hp, h2.sublist hs, ?_⟩
  exact le_trans ((hs.filter _).length_le) h3

theorem inv1_step (s : Store) (op : Op) (h : Inv1Rows s.rows)
    (hok : addFreshOk s op = true) : Inv1Rows ((stepOp s op).rows) := by
  cases op with
  | add p par =>
      show Inv1Rows ((rb_display_page_model_add_page s p par).rows)
      rcases add_page_rows s p par with he | ⟨pr, he⟩
      · rw [he]; exact h
      · rw [he]
        refine inv1_append s.rows _ rfl ?_ h
        intro x hx
        have := List.all_eq_true.mp hok x hx
        simpa using this
  | remove p =>
      show Inv1Rows ((rb_display_page_model_remove_page s p).rows)
      rcases remove_page_rows s p with he | ⟨f, he⟩
      · rw [he]; exact h
      · rw [he]
        exact inv1_sublist (List.filter_sublist _) h
  | setPlayingSource src =>
      show Inv1Rows ((rb_display_page_model_set_playing_source s src).rows)
      rw [show (rb_display_page_model_set_playing_source s src).rows =
            s.rows.map (set_playing_flag src) from rfl]
      obtain ⟨h1, h2, h3⟩ := h
      refine ⟨?_, ?_, ?_⟩
      · intro x hx hp
        obtain ⟨y, hy, rfl⟩ := List.mem_map.mp hx
        rw [set_playing_flag_playing src y (h1 y hy)] at hp
        rw [set_playing_flag_page]
        exact ((Bool.and_eq_true _ _).mp hp).1
      · rw [List.pairwise_map]
        exact h2.imp fun {a b} hab => by
          rw [set_playing_flag_page, set_playing_flag_page]
          exact hab
      · exact count_play_after_set src s.rows h2 h1

theorem inv1_run (ops : List Op) : ∀ s : Store,
    validFrom (fun s op => addFreshOk s op) s ops = true →
    Inv1Rows s.rows → Inv1Rows ((ops.foldl stepOp s).rows) := by
  induction ops with
  | nil => intro s _ h; simpa using h
  | cons op rest ih =>
      intro s hv h
      rw [validFrom] at hv
      have hv' := (Bool.and_eq_true _ _).mp hv
      exact ih (stepOp s op) hv'.2 (inv1_step s op h hv'.1)

/-- C1 counterexample: from the empty model, adding the same source page
object twice and then making it the playing source leaves two rows with the
PLAYING column set, so the claimed invariant fails for this operation
sequence. -/
theorem C1_counterexample : ¬(countPlaying (runOps dupTrace) ≤ 1) := by
  decide

/-- C1 (amended): for every sequence of model operations in which a page is
never added while a row holding it is still present, at most one row of the
tree store has PLAYING set; moreover set_playing_flag leaves PLAYING true
exactly on the source rows whose page is the given source, and
rb_display_page_model_add_page initialises the PLAYING column of every row
it creates to FALSE. -/
theorem C1_at_most_one_playing (ops : List Op) (h : c1Valid ops = true) :
    countPlaying (runOps ops) ≤ 1 ∧
    (∀ src : Page, ∀ r ∈ (rb_display_page_model_set_playing_source (runOps ops) src).rows,
       r.playing = (r.page.isSource && decide (r.page = src))) ∧
    (∀ (p : Page) (par : Option Page),
       ∀ r ∈ (rb_display_page_model_add_page (runOps ops) p par).rows,
         r ∉ (runOps ops).rows → r.playing = false) := by
  have hInv : Inv1Rows (runOps ops).rows := by
    have hempty : Inv1Rows emptyStore.rows := by
      refine ⟨?_, ?_, ?_⟩ <;> simp [emptyStore]
    have := inv1_run ops emptyStore h hempty
    simpa [runOps] using this
  obtain ⟨h1, h2, h3⟩ := hInv
  refine ⟨h3, ?_, ?_⟩
  · intro src r hr
    rw [show (rb_display_page_model_set_playing_source (runOps ops) src).rows =
          (runOps ops).rows.map (set_playing_flag src) from rfl] at hr
    obtain ⟨x, hx, rfl⟩ := List.mem_map.mp hr
    rw [set_playing_flag_playing src x (h1 x hx), set_playing_flag_page src x]
  · intro p par r hr hnot
    rcases add_page_rows (runOps ops) p par with he | ⟨pr, he⟩
    · rw [he] at hr
      exact absurd hr hnot
    · rw [he] at hr
      rcases List.mem_append.mp hr with hr' | hr'
      · exact absurd hr' hnot
      · rw [List.mem_singleton.mp hr']

/-- C1 witness: the theorem applied to the concrete valid trace that builds
the fixed group with its two sources. -/
theorem C1_witness :
    c1Valid fixTrace = true ∧
    (countPlaying (runOps fixTrace) ≤ 1 ∧
     (∀ src : Page, ∀ r ∈ (rb_display_page_model_set_playing_source (runOps fixTrace) src).rows,
        r.playing = (r.page.isSource && decide (r.page = src))) ∧
     (∀ (p : Page) (par : Option Page),
        ∀ r ∈ (rb_display_page_model_add_page (runOps fixTrace) p par).rows,
          r ∉ (runOps fixTrace).rows → r.playing = false)) :=
  ⟨by decide, C1_at_most_one_playing fixTrace (by decide)⟩

/-! Lemmas towards C2. -/

theorem lookupVis_cons_self (rows : List Row) (n : Nat) (vl : List (Nat × Bool))
    (pid : Nat) (b : Bool) (p : Page) (h : p.pid = pid) :
    lookupVis ⟨rows, n, (pid, b) :: vl⟩ p = b := by
  unfold lookupVis
  rw [List.find?_cons_of_pos]
  simp [h]

theorem lookupVis_cons_other (rows : List Row) (n : Nat) (vl : List (Nat × Bool))
    (pid : Nat) (b : Bool) (p : Page) (h : p.pid ≠ pid)
    (rows2 : List Row) (n2 : Nat) :
    lookupVis ⟨rows, n, (pid, b) :: vl⟩ p = lookupVis ⟨rows2, n2, vl⟩ p := by
  unfold lookupVis
  rw [List.find?_cons_of_neg]
  simp
  exact fun habs => h habs.symm

theorem hasChild_append (l : List Row) (x : Row) (rid : Nat) :
    hasChild (l ++ [x]) rid = (hasChild l rid || decide (x.parent = some rid)) := by
  simp [hasChild, List.any_append]

theorem hasChild_map_set_playing (src : Page) (l : List Row) (rid : Nat) :
    hasChild (l.map (set_playing_flag src)) rid = hasChild l rid := by
  rw [hasChild, List.any_map, hasChild]
  congr 1
  funext r
  simp [Function.comp, set_playing_flag_parent]

theorem hasChild_fresh (l : List Row) (n : Nat)
    (h : ∀ r ∈ l, ∀ y, r.parent = some y → y < n) : hasChild l n = false := by
  cases hany : hasChild l n
  · rfl
  · exfalso
    obtain ⟨r, hr, hp⟩ := List.any_eq_true.mp hany
    have := h r hr n (of_decide_eq_true hp)
    exact Nat.lt_irrefl n this

theorem descAcc_step (r : Row) (rest : List Row) (acc : List Nat) :
    descAcc (r :: rest) acc =
      descAcc rest
        (if (match r.parent with
             | some p => decide (p ∈ acc)
             | none => false) then r.rid :: acc else acc) := rfl

theorem descAcc_subset (l : List Row) : ∀ acc : List Nat, ∀ x ∈ acc, x ∈ descAcc l acc := by
  induction l with
  | nil => intro acc x hx; exact hx
  | cons r rest ih =>
      intro acc x hx
      rw [descAcc_step]
      split
      · exact ih _ x (List.mem_cons_of_mem _ hx)
      · exact ih _ x hx

theorem descAcc_sound (l : List Row) : ∀ acc : List Nat, ∀ x ∈ descAcc l acc,
    x ∈ acc ∨ ∃ r ∈ l, r.rid = x ∧ ∃ pp, r.parent = some pp ∧ pp ∈ descAcc l acc := by
  induction l with
  | nil => intro acc x hx; exact Or.inl hx
  | cons r rest ih =>
      intro acc x hx
      rw [descAcc_step] at hx
      by_cases hc : (match r.parent with
                     | some p => decide (p ∈ acc)
                     | none => false) = true
      · rw [if_pos hc] at hx
        rw [descAcc_step, if_pos hc]
        rcases ih (r.rid :: acc) x hx with hx' | ⟨r', hr', hrx, pp, hpp, hppin⟩
        · rcases List.mem_cons.mp hx' with rfl | hx''
          · cases hpar : r.parent with
            | none => rw [hpar] at hc; exact absurd hc (by simp)
            | some y =>
                rw [hpar] at hc
                have hy : y ∈ acc := of_decide_eq_true hc
                exact Or.inr ⟨r, List.mem_cons_self _ _, rfl,
                  y, hpar, descAcc_subset rest _ y (List.mem_cons_of_mem _ hy)⟩
          · exact Or.inl hx''
        · exact Or.inr ⟨r', List.mem_cons_of_mem _ hr', hrx, pp, hpp, hppin⟩
      · rw [if_neg hc] at hx
        rw [descAcc_step, if_neg hc]
        rcases ih acc x hx with hx' | ⟨r', hr', hrx, pp, hpp, hppin⟩
        · exact Or.inl hx'
        · exact Or.inr ⟨r', List.mem_cons_of_mem _ hr', hrx, pp, hpp, hppin⟩

theorem descAcc_lb (l : List Row) : ∀ (acc : List Nat) (b : Nat),
    (∀ r ∈ l, ∀ y, r.parent = some y → y < r.rid) →
    (∀ x ∈ acc, b ≤ x) → ∀ x ∈ descAcc l acc, b ≤ x := by
  induction l with
  | nil => intro acc b _ hacc x hx; exact hacc x hx
  | cons r rest ih =>
      intro acc b hpar hacc x hx
      rw [descAcc_step] at hx
      by_cases hc : (match r.parent with
                     | some p => decide (p ∈ acc)
                     | none => false) = true
      · rw [if_pos hc] at hx
        refine ih (r.rid :: acc) b (fun r' hr' => hpar r' (List.mem_cons_of_mem _ hr')) ?_ x hx
        intro y hy
        rcases List.mem_cons.mp hy with rfl | hy'
        · cases hpar' : r.parent with
          | none => rw [hpar'] at hc; exact absurd hc (by simp)
          | some z =>
              rw [hpar'] at hc
              have hz : z ∈ acc := of_decide_eq_true hc
              exact Nat.le_of_lt (Nat.lt_of_le_of_lt (hacc z hz)
                (hpar r (List.mem_cons_self _ _) z hpar'))
        · exact hacc y hy'
      · rw [if_neg hc] at hx
        exact ih acc b (fun r' hr' => hpar r' (List.mem_cons_of_mem _ hr')) hacc x hx

theorem hasChild_filter_eq (l : List Row) (dset : List Nat) (y : Nat)
    (hkeep : ∀ c ∈ l, c.parent = some y → c.rid ∉ dset) :
    hasChild (l.filter (fun r => !(decide (r.rid ∈ dset)))) y = hasChild l y := by
  rw [Bool.eq_iff_iff, hasChild, hasChild, List.any_eq_true, List.any_eq_true]
  constructor
  · rintro ⟨c, hc, hp⟩
    exact ⟨c, (List.mem_filter.mp hc).1, hp⟩
  · rintro ⟨c, hc, hp⟩
    have hcy : c.parent = some y := of_decide_eq_true hp
    refine ⟨c, List.mem_filter.mpr ⟨hc, ?_⟩, hp⟩
    simp [hkeep c hc hcy]

theorem keep_children (rows : List Row) (q : Row) (hq : q ∈ rows)
    (hsorted : rows.Pairwise (fun a b => a.rid < b.rid)) (y : Nat)
    (hy : y ∉ descAcc rows [q.rid]) (hqp : ¬(q.parent = some y)) :
    ∀ c ∈ rows, c.parent = some y → c.rid ∉ descAcc rows [q.rid] := by
  intro c hc hcy hcd
  rcases descAcc_sound rows [q.rid] c.rid hcd with hx | ⟨r', hr', hrx, pp, hpp, hppin⟩
  · have hcq : c = q := rid_inj hsorted hc hq (List.mem_singleton.mp hx)
    rw [hcq] at hcy
    exact hqp hcy
  · have hrc : r' = c := rid_inj hsorted hr' hc hrx
    rw [hrc] at hpp
    rw [hcy] at hpp
    have hyp : y = pp := by injection hpp
    rw [← hyp] at hppin
    exact hy hppin

theorem inv2_core_append (s : Store) (h : Inv2 s) (p : Page) (par : Option Nat)
    (hfresh : ∀ r ∈ s.rows, r.page.pid ≠ p.pid)
    (hpar : ∀ y, par = some y → y < s.nextId) :
    (s.rows ++ [(⟨s.nextId, p, false, par⟩ : Row)]).Pairwise (fun a b => a.rid < b.rid) ∧
    (∀ r ∈ s.rows ++ [(⟨s.nextId, p, false, par⟩ : Row)], r.rid < s.nextId + 1) ∧
    (s.rows ++ [(⟨s.nextId, p, false, par⟩ : Row)]).Pairwise (fun a b => a.page.pid ≠ b.page.pid) ∧
    (∀ r ∈ s.rows ++ [(⟨s.nextId, p, false, par⟩ : Row)], ∀ y, r.parent = some y → y < r.rid) := by
  obtain ⟨i1, i2, i3, i4, _, _⟩ := h
  refine ⟨?_, ?_, ?_, ?_⟩
  · rw [List.pairwise_append]
    refine ⟨i1, List.pairwise_singleton _ _, ?_⟩
    intro a ha b hb
    rw [List.mem_singleton.mp hb]
    exact i2 a ha
  · intro r hr
    rcases List.mem_append.mp hr with hr' | hr'
    · exact Nat.lt_succ_of_lt (i2 r hr')
    · rw [List.mem_singleton.mp hr']
      exact Nat.lt_succ_self _
  · rw [List.pairwise_append]
    refine ⟨i3, List.pairwise_singleton _ _, ?_⟩
    intro a ha b hb
    rw [List.mem_singleton.mp hb]
    exact hfresh a ha
  · intro r hr y hy
    rcases List.mem_append.mp hr with hr' | hr'
    · exact i4 r hr' y hy
    · rw [List.mem_singleton.mp hr'] at hy ⊢
      exact hpar y hy

theorem addFreshOk_pid (s : Store) (p : Page) (par : Option Page)
    (hf : addFreshOk s (.add p par) = true) : ∀ r ∈ s.rows, r.page.pid ≠ p.pid := by
  intro r hr
  have := List.all_eq_true.mp hf r hr
  simpa using this

theorem inv2_add_none (s : Store) (p : Page) (h : Inv2 s)
    (hf : addFreshOk s (.add p none) = true) :
    Inv2 (rb_display_page_model_add_page s p none) := by
  have hfresh := addFreshOk_pid s p none hf
  have hs2 : rb_display_page_model_add_page s p none =
      ⟨s.rows ++ [⟨s.nextId, p, false, none⟩], s.nextId + 1, (p.pid, false) :: s.vis⟩ := rfl
  rw [hs2]
  obtain ⟨c1, c2, c3, c4⟩ := inv2_core_append s h p none hfresh (by intro y hy; cases hy)
  obtain ⟨i1, i2, i3, i4, i5, i6⟩ := h
  refine ⟨c1, c2, c3, c4, ?_, ?_⟩
  · intro r hr hg
    rcases List.mem_append.mp hr with hr' | hr'
    · exact i5 r hr' hg
    · rw [List.mem_singleton.mp hr']
  · intro r hr hg
    rcases List.mem_append.mp hr with hr' | hr'
    · rw [lookupVis_cons_other _ _ _ _ _ _ (hfresh r hr') s.rows s.nextId]
      have hlv : lookupVis ⟨s.rows, s.nextId, s.vis⟩ r.page = lookupVis s r.page := rfl
      rw [hlv, i6 r hr' hg, hasChild_append]
      simp
    · rw [List.mem_singleton.mp hr'] at hg ⊢
      rw [lookupVis_cons_self _ _ _ _ _ _ rfl, hasChild_append]
      have hfr : hasChild s.rows s.nextId = false :=
        hasChild_fresh s.rows s.nextId
          (fun r' hr' y hy => Nat.lt_trans (i4 r' hr' y hy) (i2 r' hr'))
      rw [hfr]
      simp

theorem lookupVis_mk (rows : List Row) (n : Nat) (s : Store) (p : Page) :
    lookupVis ⟨rows, n, s.vis⟩ p = lookupVis s p := rfl

theorem inv2_add_some (s : Store) (p : Page) (pp : Page) (h : Inv2 s)
    (hf : addFreshOk s (.add p (some pp)) = true) (hg : p.isGroup = false) :
    Inv2 (rb_display_page_model_add_page s p (some pp)) := by
  have hfresh := addFreshOk_pid s p (some pp) hf
  cases hfind : findRowByPage s.rows pp with
  | none =>
      have hs2 : rb_display_page_model_add_page s p (some pp) = s := by
        simp only [rb_display_page_model_add_page, hfind]
      rw [hs2]
      exact h
  | some q =>
      have hqmem : q ∈ s.rows := List.mem_of_find?_eq_some hfind
      obtain ⟨i1, i2, i3, i4, i5, i6⟩ := h
      obtain ⟨c1, c2, c3, c4⟩ := inv2_core_append s ⟨i1, i2, i3, i4, i5, i6⟩ p (some q.rid)
        hfresh (by intro y hy; injection hy with hy; rw [← hy]; exact i2 q hqmem)
      have c5 : ∀ r ∈ s.rows ++ [(⟨s.nextId, p, false, some q.rid⟩ : Row)],
          r.page.isGroup = true → r.parent = none := by
        intro r hr hgr
        rcases List.mem_append.mp hr with hr' | hr'
        · exact i5 r hr' hgr
        · rw [List.mem_singleton.mp hr'] at hgr ⊢
          simp only at hgr
          rw [hg] at hgr
          cases hgr
      have hceq : ∀ y : Nat,
          hasChild (s.rows ++ [(⟨s.nextId, p, false, some q.rid⟩ : Row)]) y =
            (hasChild s.rows y || decide (q.rid = y)) := by
        intro y
        rw [hasChild_append]
        simp
      by_cases htog : hasChild s.rows q.rid = true
      · have hs2 : rb_display_page_model_add_page s p (some pp) =
            ⟨s.rows ++ [⟨s.nextId, p, false, some q.rid⟩], s.nextId + 1, s.vis⟩ := by
          simp only [rb_display_page_model_add_page, hfind]
          rw [if_pos htog]
        rw [hs2]
        refine ⟨c1, c2, c3, c4, c5, ?_⟩
        intro r hr hgr
        rcases List.mem_append.mp hr with hr' | hr'
        · rw [lookupVis_mk, i6 r hr' hgr, hceq r.rid]
          by_cases hqr : q.rid = r.rid
          · have hrq : r = q := rid_inj i1 hr' hqmem hqr.symm
            rw [hrq, htog]
            simp
          · simp [hqr]
        · rw [List.mem_singleton.mp hr'] at hgr
          simp only at hgr
          rw [hg] at hgr
          cases hgr
      · have hs2 : rb_display_page_model_add_page s p (some pp) =
            updateGroupVis ⟨s.rows ++ [⟨s.nextId, p, false, some q.rid⟩], s.nextId + 1, s.vis⟩ q := by
          simp only [rb_display_page_model_add_page, hfind]
          rw [if_neg htog]
        rw [hs2]
        by_cases hgq : q.page.isGroup = true
        · have hupd : updateGroupVis
              ⟨s.rows ++ [⟨s.nextId, p, false, some q.rid⟩], s.nextId + 1, s.vis⟩ q =
              ⟨s.rows ++ [⟨s.nextId, p, false, some q.rid⟩], s.nextId + 1,
               (q.page.pid,
                hasChild (s.rows ++ [(⟨s.nextId, p, false, some q.rid⟩ : Row)]) q.rid) :: s.vis⟩ := by
            unfold updateGroupVis
            rw [if_pos hgq]
            rfl
          rw [hupd]
          refine ⟨c1, c2, c3, c4, c5, ?_⟩
          intro r hr hgr
          rcases List.mem_append.mp hr with hr' | hr'
          · by_cases hrq : r = q
            · rw [hrq]
              exact lookupVis_cons_self _ _ _ _ _ _ rfl
            · have hpid : r.page.pid ≠ q.page.pid :=
                pairwise_mem_rel (fun a b hab => Ne.symm hab) i3 hr' hqmem hrq
              rw [lookupVis_cons_other _ _ _ _ _ _ hpid s.rows s.nextId]
              rw [lookupVis_mk, i6 r hr' hgr, hceq r.rid]
              have hqr : ¬(q.rid = r.rid) := fun he => hrq (rid_inj i1 hr' hqmem he.symm)
              simp [hqr]
          · rw [List.mem_singleton.mp hr'] at hgr
            simp only at hgr
            rw [hg] at hgr
            cases hgr
        · have hupd : updateGroupVis
              ⟨s.rows ++ [⟨s.nextId, p, false, some q.rid⟩], s.nextId + 1, s.vis⟩ q =
              ⟨s.rows ++ [⟨s.nextId, p, false, some q.rid⟩], s.nextId + 1, s.vis⟩ := by
            unfold updateGroupVis
            rw [if_neg hgq]
          rw [hupd]
          refine ⟨c1, c2, c3, c4, c5, ?_⟩
          intro r hr hgr
          rcases List.mem_append.mp hr with hr' | hr'
          · have hrq : r ≠ q := fun he => hgq (by rw [← he]; exact hgr)
            rw [lookupVis_mk, i6 r hr' hgr, hceq r.rid]
            have hqr : ¬(q.rid = r.rid) := fun he => hrq (rid_inj i1 hr' hqmem he.symm)
            simp [hqr]
          · rw [List.mem_singleton.mp hr'] at hgr
            simp only at hgr
            rw [hg] at hgr
            cases hgr

theorem inv2_remove (s : Store) (p : Page) (h : Inv2 s) :
    Inv2 (rb_display_page_model_remove_page s p) := by
  cases hfind : findRowByPage s.rows p with
  | none =>
      have hs2 : rb_display_page_model_remove_page s p = s := by
        simp only [rb_display_page_model_remove_page, hfind]
      rw [hs2]
      exact h
  | some q =>
      have hqmem : q ∈ s.rows := List.mem_of_find?_eq_some hfind
      obtain ⟨i1, i2, i3, i4, i5, i6⟩ := h
      have hmemR : ∀ r : Row,
          r ∈ s.rows.filter (fun r => !decide (r.rid ∈ descAcc s.rows [q.rid])) ↔
            r ∈ s.rows ∧ r.rid ∉ descAcc s.rows [q.rid] := by
        intro r
        rw [List.mem_filter]
        simp
      have c1 : (s.rows.filter (fun r => !decide (r.rid ∈ descAcc s.rows [q.rid]))).Pairwise
          (fun a b => a.rid < b.rid) := List.Pairwise.sublist (List.filter_sublist _) i1
      have c2 : ∀ r ∈ s.rows.filter (fun r => !decide (r.rid ∈ descAcc s.rows [q.rid])),
          r.rid < s.nextId := fun r hr => i2 r ((hmemR r).mp hr).1
      have c3 : (s.rows.filter (fun r => !decide (r.rid ∈ descAcc s.rows [q.rid]))).Pairwise
          (fun a b => a.page.pid ≠ b.page.pid) :=
        List.Pairwise.sublist (List.filter_sublist _) i3
      have c4 : ∀ r ∈ s.rows.filter (fun r => !decide (r.rid ∈ descAcc s.rows [q.rid])),
          ∀ y, r.parent = some y → y < r.rid :=
        fun r hr => i4 r ((hmemR r).mp hr).1
      have c5 : ∀ r ∈ s.rows.filter (fun r => !decide (r.rid ∈ descAcc s.rows [q.rid])),
          r.page.isGroup = true → r.parent = none :=
        fun r hr => i5 r ((hmemR r).mp hr).1
      have hkeep : ∀ y : Nat, y ∉ descAcc s.rows [q.rid] → ¬(q.parent = some y) →
          hasChild (s.rows.filter (fun r => !decide (r.rid ∈ descAcc s.rows [q.rid]))) y =
            hasChild s.rows y := by
        intro y hy hqp
        exact hasChild_filter_eq s.rows (descAcc s.rows [q.rid]) y
          (keep_children s.rows q hqmem i1 y hy hqp)
      have gvis0 : ∀ r ∈ s.rows.filter (fun r => !decide (r.rid ∈ descAcc s.rows [q.rid])),
          r.page.isGroup = true → ¬(q.parent = some r.rid) →
          lookupVis s r.page =
            hasChild (s.rows.filter (fun r => !decide (r.rid ∈ descAcc s.rows [q.rid]))) r.rid := by
        intro r hr hgr hqp
        have hr' := (hmemR r).mp hr
        rw [i6 r hr'.1 hgr, hkeep r.rid hr'.2 hqp]
      cases hqp : q.parent with
      | none =>
          have hs2 : rb_display_page_model_remove_page s p =
              ⟨s.rows.filter (fun r => !decide (r.rid ∈ descAcc s.rows [q.rid])),
               s.nextId, s.vis⟩ := by
            simp only [rb_display_page_model_remove_page, hfind, hqp]
          rw [hs2]
          refine ⟨c1, c2, c3, c4, c5, ?_⟩
          intro r hr hgr
          rw [lookupVis_mk]
          refine gvis0 r hr hgr ?_
          rw [hqp]
          intro habs
          cases habs
      | some pr =>
          by_cases heq : hasChild s.rows pr =
              hasChild (s.rows.filter (fun r => !decide (r.rid ∈ descAcc s.rows [q.rid]))) pr
          · have hs2 : rb_display_page_model_remove_page s p =
                ⟨s.rows.filter (fun r => !decide (r.rid ∈ descAcc s.rows [q.rid])),
                 s.nextId, s.vis⟩ := by
              simp only [rb_display_page_model_remove_page, hfind, hqp]
              rw [if_pos heq]
            rw [hs2]
            refine ⟨c1, c2, c3, c4, c5, ?_⟩
            intro r hr hgr
            rw [lookupVis_mk]
            by_cases hry : q.parent = some r.rid
            · have hrp : r.rid = pr := by
                rw [hqp] at hry
                injection hry with h'
                exact h'.symm
              have hr' := (hmemR r).mp hr
              rw [i6 r hr'.1 hgr, hrp, heq]
            · exact gvis0 r hr hgr hry
          · cases hfind2 : (s.rows.filter
                (fun r => !decide (r.rid ∈ descAcc s.rows [q.rid]))).find?
                  (fun x => decide (x.rid = pr)) with
            | none =>
                have hs2 : rb_display_page_model_remove_page s p =
                    ⟨s.rows.filter (fun r => !decide (r.rid ∈ descAcc s.rows [q.rid])),
                     s.nextId, s.vis⟩ := by
                  simp only [rb_display_page_model_remove_page, hfind, hqp]
                  rw [if_neg heq, hfind2]
                rw [hs2]
                refine ⟨c1, c2, c3, c4, c5, ?_⟩
                intro r hr hgr
                rw [lookupVis_mk]
                refine gvis0 r hr hgr ?_
                rw [hqp]
                intro habs
                injection habs with h'
                have hnone := List.find?_eq_none.mp hfind2 r hr
                exact hnone (decide_eq_true h'.symm)
            | some prow =>
                have hprowR : prow ∈ s.rows.filter
                    (fun r => !decide (r.rid ∈ descAcc s.rows [q.rid])) :=
                  List.mem_of_find?_eq_some hfind2
                have hprowrid : prow.rid = pr := by
                  have hpred := List.find?_some hfind2
                  simpa using hpred
                have hprowmem : prow ∈ s.rows := ((hmemR prow).mp hprowR).1
                by_cases hgprow : prow.page.isGroup = true
                · have hs2 : rb_display_page_model_remove_page s p =
                      ⟨s.rows.filter (fun r => !decide (r.rid ∈ descAcc s.rows [q.rid])),
                       s.nextId,
                       (prow.page.pid,
                        hasChild (s.rows.filter
                          (fun r => !decide (r.rid ∈ descAcc s.rows [q.rid]))) prow.rid) ::
                         s.vis⟩ := by
                    simp only [rb_display_page_model_remove_page, hfind, hqp]
                    rw [if_neg heq, hfind2]
                    dsimp only
                    unfold updateGroupVis
                    rw [if_pos hgprow]
                    rfl
                  rw [hs2]
                  refine ⟨c1, c2, c3, c4, c5, ?_⟩
                  intro r hr hgr
                  by_cases hrp : r = prow
                  · rw [hrp]
                    exact lookupVis_cons_self _ _ _ _ _ _ rfl
                  · have hpid : r.page.pid ≠ prow.page.pid :=
                      pairwise_mem_rel (fun a b hab => Ne.symm hab) i3 ((hmemR r).mp hr).1
                        hprowmem hrp
                    rw [lookupVis_cons_other _ _ _ _ _ _ hpid s.rows s.nextId, lookupVis_mk]
                    refine gvis0 r hr hgr ?_
                    rw [hqp]
                    intro habs
                    injection habs with h'
                    exact hrp (rid_inj c1 hr hprowR (h'.symm.trans hprowrid.symm))
                · have hs2 : rb_display_page_model_remove_page s p =
                      ⟨s.rows.filter (fun r => !decide (r.rid ∈ descAcc s.rows [q.rid])),
                       s.nextId, s.vis⟩ := by
                    simp only [rb_display_page_model_remove_page, hfind, hqp]
                    rw [if_neg heq, hfind2]
                    dsimp only
                    unfold updateGroupVis
                    rw [if_neg hgprow]
                  rw [hs2]
                  refine ⟨c1, c2, c3, c4, c5, ?_⟩
                  intro r hr hgr
                  rw [lookupVis_mk]
                  refine gvis0 r hr hgr ?_
                  rw [hqp]
                  intro habs
                  injection habs with h'
                  have hrp : r = prow := rid_inj c1 hr hprowR (h'.symm.trans hprowrid.symm)
                  rw [hrp] at hgr
                  exact hgprow hgr

theorem inv2_set_playing (s : Store) (src : Page) (h : Inv2 s) :
    Inv2 (rb_display_page_model_set_playing_source s src) := by
  obtain ⟨i1, i2, i3, i4, i5, i6⟩ := h
  have hs2 : rb_display_page_model_set_playing_source s src =
      ⟨s.rows.map (set_playing_flag src), s.nextId, s.vis⟩ := rfl
  rw [hs2]
  refine ⟨?_, ?_, ?_, ?_, ?_, ?_⟩
  · rw [List.pairwise_map]
    exact i1.imp fun {a b} hab => by
      rw [set_playing_flag_rid, set_playing_flag_rid]
      exact hab
  · intro r hr
    obtain ⟨x, hx, rfl⟩ := List.mem_map.mp hr
    rw [set_playing_flag_rid]
    exact i2 x hx
  · rw [List.pairwise_map]
    exact i3.imp fun {a b} hab => by
      rw [set_playing_flag_page, set_playing_flag_page]
      exact hab
  · intro r hr y hy
    obtain ⟨x, hx, rfl⟩ := List.mem_map.mp hr
    rw [set_playing_flag_parent] at hy
    rw [set_playing_flag_rid]
    exact i4 x hx y hy
  · intro r hr hgr
    obtain ⟨x, hx, rfl⟩ := List.mem_map.mp hr
    rw [set_playing_flag_page] at hgr
    rw [set_playing_flag_parent]
    exact i5 x hx hgr
  · intro r hr hgr
    obtain ⟨x, hx, rfl⟩ := List.mem_map.mp hr
    rw [set_playing_flag_page] at hgr ⊢
    rw [set_playing_flag_rid, lookupVis_mk, hasChild_map_set_playing]
    exact i6 x hx hgr

theorem inv2_step (s : Store) (op : Op) (h : Inv2 s)
    (hok : (addFreshOk s op && groupTopOk op) = true) : Inv2 (stepOp s op) := by
  have hok' := (Bool.and_eq_true _ _).mp hok
  cases op with
  | add p par =>
      cases par with
      | none => exact inv2_add_none s p h hok'.1
      | some pp =>
          have hg : p.isGroup = false := by
            have hh := hok'.2
            rw [groupTopOk] at hh
            simpa using hh
          exact inv2_add_some s p pp h hok'.1 hg
  | remove p => exact inv2_remove s p h
  | setPlayingSource src => exact inv2_set_playing s src h

theorem inv2_run (ops : List Op) : ∀ s : Store,
    validFrom (fun s op => addFreshOk s op && groupTopOk op) s ops = true →
    Inv2 s → Inv2 (ops.foldl stepOp s) := by
  induction ops with
  | nil => intro s _ h; simpa using h
  | cons op rest ih =>
      intro s hv h
      rw [validFrom] at hv
      have hv' := (Bool.and_eq_true _ _).mp hv
      exact ih (stepOp s op) hv'.2 (inv2_step s op h hv'.1)

/-- C2 counterexample: adding a top-level group and then, under it, a group
page whose visibility property is TRUE reaches a state where that childless
group row is visible, violating the claimed invariant for the reachable
states of the model operations. -/
theorem C2_counterexample : visInvHolds (runOps groupChildTrace) = false := by
  decide

/-- C2 (amended): along every trace of model operations in which a page is
never added while still present and group pages are only added at top level
(which is how the program uses the model), after each operation (the
row-has-child-toggled handler included) every group row's visibility equals
whether it currently has a child; and a page added at top level has its
visibility forced to FALSE, so a newly added top-level group starts hidden
until it gains a child. -/
theorem C2_group_visibility (ops : List Op) (h : c2Valid ops = true) :
    visInvHolds (runOps ops) = true ∧
    ∀ p : Page, lookupVis (rb_display_page_model_add_page (runOps ops) p none) p = false := by
  have hempty : Inv2 emptyStore := by
    refine ⟨?_, ?_, ?_, ?_, ?_, ?_⟩ <;> simp [emptyStore]
  have hInv : Inv2 (runOps ops) := inv2_run ops emptyStore h hempty
  obtain ⟨i1, i2, i3, i4, i5, i6⟩ := hInv
  constructor
  · rw [visInvHolds, List.all_eq_true]
    intro r hr
    by_cases hgr : r.page.isGroup = true
    · rw [i6 r hr hgr]
      simp
    · rw [Bool.eq_false_iff.mpr hgr]
      simp
  · intro p
    exact lookupVis_cons_self _ _ _ _ _ _ rfl

/-- C2 witness: the theorem applied to the valid trace that builds the fixed
group with its two sources. -/
theorem C2_witness :
    c2Valid fixTrace = true ∧
    (visInvHolds (runOps fixTrace) = true ∧
     ∀ p : Page, lookupVis (rb_display_page_model_add_page (runOps fixTrace) p none) p = false) :=
  ⟨by decide, C2_group_visibility fixTrace (by decide)⟩
